import Mathlib

/-!
Verification of the Grid Blueprint & Fill Reconciliation Engine of the
RMS-filler repository (files `Coursefile/code/routine.py` and
`Coursefile/coursefile.py`).

Strings are modelled as `List Char` (Python `str`), grids as functions from
coordinates to cell-identity tokens (the spec's `CellIdentity`; in the source
this is the docx cell object supplied by the external document-reading
collaborator), and fallible Python code as `Except`-valued functions.
-/

namespace RMSFiller

/-! ## Text normalization

`get_document_context` records each cell's text as
`cell.text.replace('\n', ' ').strip()` (routine.py line 101, coursefile.py
line 245).  Python `str.replace('\n', ' ')` rewrites every newline character
to a space; `str.strip()` removes leading and trailing whitespace. -/

/-- The characters Python `str.strip()` removes (ASCII whitespace). -/
def pySpace (c : Char) : Bool :=
  c = ' ' || c = '\t' || c = '\n' || c = '\r' || c = '\x0b' || c = '\x0c'

/-- Python `s.strip()`: drop leading whitespace, then trailing whitespace. -/
def stripEnds (s : List Char) : List Char :=
  (((s.dropWhile pySpace).reverse.dropWhile pySpace).reverse)

/-- `cell.text.replace('\n', ' ').strip()` from the source. -/
def normalizeText (s : List Char) : List Char :=
  stripEnds (s.map fun ch => if ch = '\n' then ' ' else ch)

/-! ## GridSnapshot and the blueprint extractor

`get_document_context` (routine.py lines 71-116) / `routine_get_document_context`
(coursefile.py lines 222-257): row-major scan over `table.rows`/`row.cells`,
a `visited_cells` set of cell identities, and for each fresh identity a
rightward scan `for c in range(c_idx+1, total_columns)` and a downward scan
`for r in range(r_idx+1, total_rows)`, each breaking at the first coordinate
whose cell differs from the current one. -/

/-- The grid contents handed over by the document-reading collaborator:
dimensions, the cell-identity token at each coordinate, and per-identity
text (`cell.text`) and width (`cell.width.emu if cell.width else 0`). -/
structure GridSnapshot where
  rows : Nat
  cols : Nat
  cellAt : Nat → Nat → Nat
  textOf : Nat → List Char
  widthOf : Nat → Nat

/-- One entry of `cell_definitions` in the source. -/
structure CellDef where
  text : List Char
  width : Nat
  start_row : Nat
  start_col : Nat
  end_row : Nat
  end_col : Nat
deriving DecidableEq

/-- The `blueprint` dict built by the source. -/
structure Blueprint where
  total_rows : Nat
  total_columns : Nat
  cells : List CellDef
deriving DecidableEq

/-- A `for x in range(...): if p x: cur = x else: break` scan: extend `cur`
through the list while `p` holds, stopping at the first failure. -/
def scanExtend (p : Nat → Bool) : Nat → List Nat → Nat
  | cur, [] => cur
  | cur, x :: rest => if p x then scanExtend p x rest else cur

/-- `for c in range(c_idx+1, total_columns): if table.cell(r_idx, c) == cell:
end_col = c else: break` (routine.py lines 88-92). -/
def growEndCol (g : GridSnapshot) (r c id : Nat) : Nat :=
  scanExtend (fun c2 => g.cellAt r c2 == id) c (List.range' (c + 1) (g.cols - (c + 1)))

/-- `for r in range(r_idx+1, total_rows): if table.cell(r, c_idx) == cell:
end_row = r else: break` (routine.py lines 94-98). -/
def growEndRow (g : GridSnapshot) (r c id : Nat) : Nat :=
  scanExtend (fun r2 => g.cellAt r2 c == id) r (List.range' (r + 1) (g.rows - (r + 1)))

/-- The `cell_definitions.append({...})` record emitted for a fresh cell
identity first seen at `(r, c)` (routine.py lines 100-107). -/
def mkCellDef (g : GridSnapshot) (r c : Nat) : CellDef :=
  let id := g.cellAt r c
  ⟨normalizeText (g.textOf id), g.widthOf id, r, c, growEndRow g r c id, growEndCol g r c id⟩

/-- Row-major coordinate order of the double loop
`for r_idx, row in enumerate(table.rows): for c_idx, cell in enumerate(row.cells)`. -/
def coordList (rows cols : Nat) : List (Nat × Nat) :=
  (List.range rows).flatMap fun r => (List.range cols).map fun c => (r, c)

/-- One iteration of the double loop: skip identities already in
`visited_cells`, otherwise mark visited and append the cell definition. -/
def extractStep (g : GridSnapshot) (acc : List Nat × List CellDef) (rc : Nat × Nat) :
    List Nat × List CellDef :=
  if g.cellAt rc.1 rc.2 ∈ acc.1 then acc
  else (g.cellAt rc.1 rc.2 :: acc.1, acc.2 ++ [mkCellDef g rc.1 rc.2])

/-- The blueprint built by `get_document_context` /
`routine_get_document_context` from the first table of the document. -/
def extract (g : GridSnapshot) : Blueprint :=
  ⟨g.rows, g.cols, ((coordList g.rows g.cols).foldl (extractStep g) ([], [])).2⟩

/-! ## The 2×3 scenario grid (spec §8)

Identities: `0` for the merged `(0,0)-(0,1)` cell "Math", `1` for `(0,2)`
"Lit", `2` for the merged row-1 cell "Sci".  The claim's expected region
`{1,0,1,2,"Sci"}` covers all of row 1, so the "Sci" cell is the single
identity occupying `(1,0)`, `(1,1)` and `(1,2)`. -/

def scenarioCell (r c : Nat) : Nat :=
  if r = 0 then (if c ≤ 1 then 0 else 1) else 2

def scenarioText (id : Nat) : List Char :=
  if id = 0 then ['M', 'a', 't', 'h'] else if id = 1 then ['L', 'i', 't'] else ['S', 'c', 'i']

def scenarioGrid : GridSnapshot :=
  ⟨2, 3, scenarioCell, scenarioText, fun _ => 0⟩

/-! ## Region coverage and solid-rectangle merge structure -/

/-- A coordinate lies inside the (inclusive) rectangle of a cell definition. -/
def coversB (cd : CellDef) (r c : Nat) : Bool :=
  decide (cd.start_row ≤ r) && decide (r ≤ cd.end_row) &&
    decide (cd.start_col ≤ c) && decide (c ≤ cd.end_col)

/-- `R0/C0/R1/C1` describe, per cell identity, a solid axis-aligned
rectangular merge: every in-bounds coordinate carries a given identity
exactly when it lies inside that identity's rectangle.  Only identities
that actually occur in the grid are constrained (the quantification runs
over the coordinates where they occur). -/
def RectSpec (g : GridSnapshot) (R0 C0 R1 C1 : Nat → Nat) : Prop :=
  ∀ r0, r0 < g.rows → ∀ c0, c0 < g.cols →
    R0 (g.cellAt r0 c0) ≤ R1 (g.cellAt r0 c0) ∧ R1 (g.cellAt r0 c0) < g.rows ∧
    C0 (g.cellAt r0 c0) ≤ C1 (g.cellAt r0 c0) ∧ C1 (g.cellAt r0 c0) < g.cols ∧
    ∀ r, r < g.rows → ∀ c, c < g.cols →
      (g.cellAt r c = g.cellAt r0 c0 ↔
        R0 (g.cellAt r0 c0) ≤ r ∧ r ≤ R1 (g.cellAt r0 c0) ∧
        C0 (g.cellAt r0 c0) ≤ c ∧ c ≤ C1 (g.cellAt r0 c0))

/-- The cell definition the extractor emits for an identity whose merge is
the solid rectangle `[R0 id, R1 id] × [C0 id, C1 id]`. -/
def rectCD (g : GridSnapshot) (R0 C0 R1 C1 : Nat → Nat) (id : Nat) : CellDef :=
  ⟨normalizeText (g.textOf id), g.widthOf id, R0 id, C0 id, R1 id, C1 id⟩

/-- Strict row-major (lexicographic) order on coordinates. -/
def lexLt (a b : Nat × Nat) : Prop :=
  a.1 < b.1 ∨ (a.1 = b.1 ∧ a.2 < b.2)

/-- Rectangle data for the scenario grid, used to instantiate `RectSpec`. -/
def scenR0 (id : Nat) : Nat := if id ≤ 1 then 0 else 1

def scenR1 (id : Nat) : Nat := if id ≤ 1 then 0 else 1

def scenC0 (id : Nat) : Nat := if id = 0 then 0 else if id = 1 then 2 else 0

def scenC1 (id : Nat) : Nat := if id = 0 then 1 else 2

/-- A 2×2 grid with an L-shaped (non-rectangular) merge: identity `0`
occupies `(0,0)`, `(0,1)` and `(1,0)`; identity `1` occupies `(1,1)`. -/
def lGrid : GridSnapshot :=
  ⟨2, 2, fun r c => if r = 1 && c = 1 then 1 else 0,
    fun id => if id = 0 then ['L', '0'] else ['L', '1'], fun _ => 0⟩

/-- A merge-free 1×1 grid whose only cell text carries leading/trailing
whitespace and an inner newline. -/
def rawTextGrid : GridSnapshot :=
  ⟨1, 1, fun _ _ => 0, fun _ => [' ', 'a', '\n', 'b', ' '], fun _ => 0⟩

/-- The cell definition the extractor emits for `lGrid`'s L-shaped merge. -/
def lCell : CellDef := ⟨['L', '0'], 0, 0, 0, 1, 1⟩

/-- The cell definition the extractor emits for `rawTextGrid`. -/
def rawCell : CellDef := ⟨['a', ' ', 'b'], 0, 0, 0, 0, 0⟩

/-- A merge-free 1×2 grid (identity `c` at coordinate `(0, c)`). -/
def plainGrid : GridSnapshot :=
  ⟨1, 2, fun _ c => c, fun id => if id = 0 then ['x'] else ['y'], fun _ => 0⟩

/-! ## GridWriter: `fill_and_save_routine` (routine.py lines 190-226)

`for instruction in instructions: r, c = instruction['row'],
instruction['column']; ... if r < len(table.rows) and c <
len(table.columns): table.cell(r, c).text = text_to_fill else: <log skip>`.
JSON numbers may be negative, so coordinates are `Int`.  python-docx's
`table.cell(r, c)` indexes the flat list `table._cells` (of length
`rows * columns`) at `c + r * columns` with Python list-index semantics:
a negative index counts from the end, and an index outside
`[-len, len)` raises `IndexError`. -/

/-- One fill instruction object from the JSON array
(`row`, `column`, `text_to_fill`). -/
structure Instr where
  row : Int
  col : Int
  text : List Char
deriving DecidableEq

/-- The destination table: dimensions and the flat `_cells` text list
(row-major, length `rows * cols`). -/
structure DocTable where
  rows : Nat
  cols : Nat
  cells : List (List Char)
deriving DecidableEq

/-- `table.cell(r, c).text = txt` with Python list-index semantics on the
flat cell list; `Except.error` models the `IndexError` raise. -/
def pySetCell (t : DocTable) (r c : Int) (txt : List Char) : Except Unit DocTable :=
  let idx : Int := c + r * (t.cols : Int)
  let n : Int := (t.cells.length : Int)
  if 0 ≤ idx then
    if idx < n then Except.ok ⟨t.rows, t.cols, t.cells.set idx.toNat txt⟩
    else Except.error ()
  else
    if 0 ≤ idx + n then Except.ok ⟨t.rows, t.cols, t.cells.set (idx + n).toNat txt⟩
    else Except.error ()

/-- One loop iteration of `fill_and_save_routine`: the source's bounds test
`r < len(table.rows) and c < len(table.columns)` (no lower bound), the write
on success, and the logged skip otherwise.  The state carries the table and
the applied/skipped coordinate lists (the write report observable in the
log). -/
def fillStep (st : DocTable × List (Int × Int) × List (Int × Int)) (i : Instr) :
    Except Unit (DocTable × List (Int × Int) × List (Int × Int)) :=
  if i.row < (st.1.rows : Int) ∧ i.col < (st.1.cols : Int) then
    (pySetCell st.1 i.row i.col i.text).map
      (fun t2 => (t2, st.2.1 ++ [(i.row, i.col)], st.2.2))
  else
    Except.ok (st.1, st.2.1, st.2.2 ++ [(i.row, i.col)])

/-- The instruction-execution loop of `fill_and_save_routine`
(routine.py lines 206-214). -/
def fillLoop (t : DocTable) (insts : List Instr) :
    Except Unit (DocTable × List (Int × Int) × List (Int × Int)) :=
  insts.foldlM fillStep (t, [], [])

/-- Definition following the claim's words (spec §4.5): an entry is applied
(cell text set, coordinate recorded applied) iff
`0 ≤ row < totalRows ∧ 0 ≤ column < totalColumns`; every other entry is
recorded skipped, never raises, and processing continues. -/
def specWriteStep (st : DocTable × List (Int × Int) × List (Int × Int)) (i : Instr) :
    DocTable × List (Int × Int) × List (Int × Int) :=
  if 0 ≤ i.row ∧ i.row < (st.1.rows : Int) ∧ 0 ≤ i.col ∧ i.col < (st.1.cols : Int) then
    (⟨st.1.rows, st.1.cols,
      st.1.cells.set (i.col + i.row * (st.1.cols : Int)).toNat i.text⟩,
     st.2.1 ++ [(i.row, i.col)], st.2.2)
  else (st.1, st.2.1, st.2.2 ++ [(i.row, i.col)])

/-- The claim-side write loop: fold `specWriteStep` over all entries. -/
def specWrite (t : DocTable) (insts : List Instr) :
    DocTable × List (Int × Int) × List (Int × Int) :=
  insts.foldl specWriteStep (t, [], [])

/-- `fill_and_save_routine` end to end.  `parsed = none` models
`json.loads` raising `json.JSONDecodeError` (the `except` branch returns
`False` before the document is even opened); `docTable = none` models a
document without tables (`return False` before any write).  The second
component of the result models the `doc.save(save_path)` call: `some`
holds the table contents that were saved, `none` means no save occurred. -/
def fillAndSave (parsed : Option (List Instr)) (docTable : Option DocTable) :
    Bool × Option DocTable :=
  match parsed with
  | none => (false, none)
  | some insts =>
    match docTable with
    | none => (false, none)
    | some t =>
      match fillLoop t insts with
      | .ok (t2, _, _) => (true, some t2)
      | .error _ => (false, none)

/-! ## ReconciliationEngine (spec §4.4)

Modelled from the spec: the source delegates collision resolution to the
generative-AI collaborator (the "Handle Conflicts" step of the prompt in
`generate_fill_instructions`, routine.py line 164, and
`routine_generate_fill_instructions`, coursefile.py line 291); no source
code implements the fold, so it is modelled from the spec's words in §4.4:
first fill initializes the entry, later fills append after one newline
unless their text is already an exact substring of the accumulated value. -/

/-- `needle` occurs at the start of `hay`. -/
def leadsList : List Char → List Char → Bool
  | [], _ => true
  | _ :: _, [] => false
  | a :: as, b :: bs => a == b && leadsList as bs

/-- Python's `needle in hay`: `needle` is a contiguous substring of `hay`. -/
def hasSubList (needle : List Char) : List Char → Bool
  | [] => leadsList needle []
  | hay@(_ :: rest) => leadsList needle hay || hasSubList needle rest

/-- An expanded per-coordinate fill (spec's ExpandedFill, provenance index
omitted: it only fixes the fold order, which the list order carries). -/
structure ExpFill where
  row : Nat
  col : Nat
  text : List Char

/-- Modelled from the spec (§4.4): fold one ExpandedFill into the
coordinate → text mapping.  First fill for a coordinate initializes the
entry; a later fill appends its text after a single newline unless it is
already an exact substring of the accumulated value. -/
def reconcileStep (m : List ((Nat × Nat) × List Char)) (f : ExpFill) :
    List ((Nat × Nat) × List Char) :=
  match m.lookup (f.row, f.col) with
  | none => m ++ [((f.row, f.col), f.text)]
  | some v =>
    if hasSubList f.text v then m
    else m.map fun e => if e.1 = (f.row, f.col) then (e.1, v ++ '\n' :: f.text) else e

/-- Modelled from the spec (§4.4): the FinalMapping built by folding the
expanded fills in order. -/
def reconcile (fills : List ExpFill) : List ((Nat × Nat) × List Char) :=
  fills.foldl reconcileStep []

/-! # Theorems -/

/-- C2: on the 2×3 scenario grid with `(0,0)-(0,1)` merged as "Math",
`(0,2)` = "Lit" and row 1 merged as "Sci", the extractor's row-major scan
with rightward/downward growth yields exactly the three regions
`{0,0,0,1,"Math"}`, `{0,2,0,2,"Lit"}`, `{1,0,1,2,"Sci"}`, one per distinct
cell identity. -/
theorem C2_scenario_regions :
    (extract scenarioGrid).cells =
      [⟨['M', 'a', 't', 'h'], 0, 0, 0, 0, 1⟩,
       ⟨['L', 'i', 't'], 0, 0, 2, 0, 2⟩,
       ⟨['S', 'c', 'i'], 0, 1, 0, 1, 2⟩] := by
  decide

/-- C5: reconciliation is order-sensitive and deterministic: fills
`[(1,1,"A"), (1,1,"B")]` yield `"A\nB"` at `(1,1)` (the first fill
initializes the entry, the second is appended after one newline), and the
reversed sequence yields `"B\nA"`. -/
theorem C5_collision_order :
    (reconcile [⟨1, 1, ['A']⟩, ⟨1, 1, ['B']⟩]).lookup (1, 1) = some ['A', '\n', 'B'] ∧
    (reconcile [⟨1, 1, ['B']⟩, ⟨1, 1, ['A']⟩]).lookup (1, 1) = some ['B', '\n', 'A'] := by
  decide

/-- C6: a subsequent fill whose text is already an exact substring of the
accumulated value at its coordinate leaves the mapping unchanged; in
particular folding `(1,1,"A")` twice yields `"A"`, not `"A\nA"`. -/
theorem C6_idempotent_guard :
    (∀ m f v, m.lookup (f.row, f.col) = some v → hasSubList f.text v = true →
      reconcileStep m f = m) ∧
    (reconcile [⟨1, 1, ['A']⟩, ⟨1, 1, ['A']⟩]).lookup (1, 1) = some ['A'] := by
  constructor
  · intro m f v hl hs
    simp [reconcileStep, hl, hs]
  · decide

theorem C6_idempotent_guard_witness :
    reconcileStep [((1, 1), ['A'])] ⟨1, 1, ['A']⟩ = [((1, 1), ['A'])] :=
  C6_idempotent_guard.1 [((1, 1), ['A'])] ⟨1, 1, ['A']⟩ ['A'] (by decide) (by decide)

/-- C7: a snapshot with zero rows or zero columns yields an empty blueprint
(`cells = []`); the scan loops simply have nothing to visit, so no error is
possible (the extractor is a total function). -/
theorem C7_empty_grid (g : GridSnapshot) (h : g.rows = 0 ∨ g.cols = 0) :
    (extract g).cells = [] := by
  have hc : coordList g.rows g.cols = [] := by
    rcases h with h | h <;> simp [coordList, h]
  simp [extract, hc]

theorem C7_empty_grid_witness :
    (extract ⟨0, 5, fun _ _ => 0, fun _ => [], fun _ => 0⟩).cells = [] :=
  C7_empty_grid ⟨0, 5, fun _ _ => 0, fun _ => [], fun _ => 0⟩ (Or.inl rfl)

/-- C10: when the fill-instruction string is not valid JSON (`json.loads`
raises, modelled by `parsed = none`), `fill_and_save_routine` returns
`False` and `doc.save` is never reached (saved component `none`), whatever
the destination document holds. -/
theorem C10_parse_failure (d : Option DocTable) : fillAndSave none d = (false, none) := rfl

/-- C1 is false as stated: the source's bounds test is
`r < len(table.rows) and c < len(table.columns)` with no lower bound, so
the entry `(row = -1, column = 0)` on a 1×1 destination is *applied* —
Python's negative indexing resolves it to the last flat cell, overwriting
`(0,0)` — instead of being skipped as out_of_bounds: the write report marks
it applied, the skipped list is empty, and the table contents change. -/
theorem C1_write_bounds_counterexample :
    fillLoop ⟨1, 1, [['o']]⟩ [⟨-1, 0, ['X']⟩] =
      Except.ok (⟨1, 1, [['X']]⟩, [((-1 : Int), (0 : Int))], ([] : List (Int × Int))) ∧
    specWrite ⟨1, 1, [['o']]⟩ [⟨-1, 0, ['X']⟩] =
      (⟨1, 1, [['o']]⟩, ([] : List (Int × Int)), [((-1 : Int), (0 : Int))]) ∧
    (⟨1, 1, [['X']]⟩ : DocTable) ≠ ⟨1, 1, [['o']]⟩ := by
  exact ⟨rfl, rfl, by decide⟩

theorem fillLoop_foldl_spec (insts : List Instr) :
    ∀ st : DocTable × List (Int × Int) × List (Int × Int),
      st.1.cells.length = st.1.rows * st.1.cols →
      (∀ i ∈ insts, 0 ≤ i.row ∧ 0 ≤ i.col) →
      insts.foldlM fillStep st = Except.ok (insts.foldl specWriteStep st) := by
  induction insts with
  | nil => intro st _ _; rfl
  | cons i rest ih =>
    intro st hlen hnn
    have hi := hnn i (List.mem_cons_self i rest)
    have hrest : ∀ j ∈ rest, 0 ≤ j.row ∧ 0 ≤ j.col := fun j hj =>
      hnn j (List.mem_cons_of_mem i hj)
    have hlen2 : ∀ j : Instr, (specWriteStep st j).1.cells.length =
        (specWriteStep st j).1.rows * (specWriteStep st j).1.cols := by
      intro j
      unfold specWriteStep
      split <;> simp [hlen]
    have hstep : fillStep st i = Except.ok (specWriteStep st i) := by
      by_cases hb : i.row < (st.1.rows : Int) ∧ i.col < (st.1.cols : Int)
      · have hspec : 0 ≤ i.row ∧ i.row < (st.1.rows : Int) ∧
            0 ≤ i.col ∧ i.col < (st.1.cols : Int) := ⟨hi.1, hb.1, hi.2, hb.2⟩
        have hcnn : (0 : Int) ≤ (st.1.cols : Int) := Int.natCast_nonneg _
        have hidx0 : 0 ≤ i.col + i.row * (st.1.cols : Int) :=
          add_nonneg hi.2 (mul_nonneg hi.1 hcnn)
        have hidxlt : i.col + i.row * (st.1.cols : Int) < (st.1.cells.length : Int) := by
          have h1 : (i.row + 1) * (st.1.cols : Int) =
              i.row * (st.1.cols : Int) + (st.1.cols : Int) := by ring
          have h2 : (i.row + 1) * (st.1.cols : Int) ≤ (st.1.rows : Int) * (st.1.cols : Int) :=
            mul_le_mul_of_nonneg_right (by omega) hcnn
          have h3 : (st.1.cells.length : Int) = (st.1.rows : Int) * (st.1.cols : Int) := by
            rw [hlen]; push_cast; ring
          have h4 := hb.2
          linarith
        simp only [fillStep, pySetCell, specWriteStep, if_pos hb, if_pos hspec,
          if_pos hidx0, if_pos hidxlt, Except.map]
      · have hspec : ¬ (0 ≤ i.row ∧ i.row < (st.1.rows : Int) ∧
            0 ≤ i.col ∧ i.col < (st.1.cols : Int)) := fun h => hb ⟨h.2.1, h.2.2.2⟩
        simp only [fillStep, specWriteStep, if_neg hb, if_neg hspec]
    calc (i :: rest).foldlM fillStep st
        = fillStep st i >>= fun s2 => rest.foldlM fillStep s2 := by
          simp [List.foldlM_cons]
      _ = rest.foldlM fillStep (specWriteStep st i) := by rw [hstep]; rfl
      _ = Except.ok (rest.foldl specWriteStep (specWriteStep st i)) :=
          ih (specWriteStep st i) (hlen2 i) hrest
      _ = Except.ok ((i :: rest).foldl specWriteStep st) := by simp [List.foldl_cons]

/-- C1 amended: for fill entries whose coordinates are both nonnegative,
the loop behaves exactly as the claim says — the cell at `(row, column)`
is set and the coordinate recorded applied iff `row < totalRows` and
`column < totalColumns`, every other such entry is recorded skipped
without raising, and a skip does not abort the remaining writes (the code
loop equals the claim-side fold `specWrite`).  Entries with a negative
coordinate, however, pass the upper-bound-only test and are applied at
the Python-wrapped index instead of being skipped. -/
theorem C1_write_bounds_amended (t : DocTable) (insts : List Instr)
    (hlen : t.cells.length = t.rows * t.cols)
    (hnn : ∀ i ∈ insts, 0 ≤ i.row ∧ 0 ≤ i.col) :
    fillLoop t insts = Except.ok (specWrite t insts) :=
  fillLoop_foldl_spec insts (t, [], []) hlen hnn

theorem scanExtend_cases (p : Nat → Bool) (cur : Nat) (xs : List Nat) :
    scanExtend p cur xs = cur ∨ scanExtend p cur xs ∈ xs := by
  induction xs generalizing cur with
  | nil => exact Or.inl rfl
  | cons x rest ih =>
    by_cases hp : p x
    · rcases ih x with h | h
      · right; simp only [scanExtend, if_pos hp, h]; exact List.mem_cons_self x rest
      · right; simp only [scanExtend, if_pos hp]; exact List.mem_cons_of_mem x h
    · left; simp only [scanExtend, if_neg hp]

theorem mem_coordList {rows cols : Nat} {rc : Nat × Nat} :
    rc ∈ coordList rows cols ↔ rc.1 < rows ∧ rc.2 < cols := by
  cases rc with
  | mk r c =>
    simp only [coordList, List.mem_flatMap, List.mem_map, List.mem_range, Prod.mk.injEq]
    constructor
    · rintro ⟨a, ha, b, hb, hab1, hab2⟩
      exact ⟨hab1 ▸ ha, hab2 ▸ hb⟩
    · rintro ⟨hr, hc⟩
      exact ⟨r, hr, c, hc, rfl, rfl⟩

theorem mem_cells_foldl (g : GridSnapshot) (P : List (Nat × Nat)) :
    ∀ (acc : List Nat × List CellDef) (cd : CellDef),
      cd ∈ (P.foldl (extractStep g) acc).2 →
      cd ∈ acc.2 ∨ ∃ rc, rc ∈ P ∧ cd = mkCellDef g rc.1 rc.2 := by
  induction P with
  | nil => intro acc cd h; exact Or.inl h
  | cons rc P ih =>
    intro acc cd h
    rw [List.foldl_cons] at h
    rcases ih (extractStep g acc rc) cd h with h2 | ⟨rc2, hm, he⟩
    · by_cases hv : g.cellAt rc.1 rc.2 ∈ acc.1
      · simp only [extractStep, if_pos hv] at h2
        exact Or.inl h2
      · simp only [extractStep, if_neg hv] at h2
        rcases List.mem_append.1 h2 with h3 | h3
        · exact Or.inl h3
        · right
          refine ⟨rc, List.mem_cons_self rc P, ?_⟩
          simpa using h3
    · exact Or.inr ⟨rc2, List.mem_cons_of_mem rc hm, he⟩

theorem growEndCol_bounds (g : GridSnapshot) (r c id : Nat) (hc : c < g.cols) :
    c ≤ growEndCol g r c id ∧ growEndCol g r c id < g.cols := by
  unfold growEndCol
  rcases scanExtend_cases (fun c2 => g.cellAt r c2 == id) c
      (List.range' (c + 1) (g.cols - (c + 1))) with h | h
  · omega
  · rw [List.mem_range'_1] at h
    omega

theorem growEndRow_bounds (g : GridSnapshot) (r c id : Nat) (hr : r < g.rows) :
    r ≤ growEndRow g r c id ∧ growEndRow g r c id < g.rows := by
  unfold growEndRow
  rcases scanExtend_cases (fun r2 => g.cellAt r2 c == id) r
      (List.range' (r + 1) (g.rows - (r + 1))) with h | h
  · omega
  · rw [List.mem_range'_1] at h
    omega

/-- C8: the extractor is a total function (the Lean definitions are
structurally recursive, mirroring the source's bounded `range` loops), and
on every snapshot — rectangular merges or not — each emitted region stays
inside the grid: the rightward scan never passes the column count and the
downward scan never passes the row count. -/
theorem C8_scan_bounds (g : GridSnapshot) (cd : CellDef) (h : cd ∈ (extract g).cells) :
    cd.start_row ≤ cd.end_row ∧ cd.end_row < g.rows ∧
    cd.start_col ≤ cd.end_col ∧ cd.end_col < g.cols := by
  rcases mem_cells_foldl g (coordList g.rows g.cols) ([], []) cd h with h2 | ⟨rc, hm, he⟩
  · exact absurd h2 (List.not_mem_nil cd)
  · rw [mem_coordList] at hm
    have h1 := growEndRow_bounds g rc.1 rc.2 (g.cellAt rc.1 rc.2) hm.1
    have h2 := growEndCol_bounds g rc.1 rc.2 (g.cellAt rc.1 rc.2) hm.2
    rw [he]
    simp only [mkCellDef]
    exact ⟨h1.1, h1.2, h2.1, h2.2⟩

theorem C8_scan_bounds_witness :
    lCell.start_row ≤ lCell.end_row ∧ lCell.end_row < lGrid.rows ∧
    lCell.start_col ≤ lCell.end_col ∧ lCell.end_col < lGrid.cols :=
  C8_scan_bounds lGrid lCell (by decide)

theorem head?_dropWhile_false {α : Type} {p : α → Bool} {l : List α} {ch : α}
    (h : (l.dropWhile p).head? = some ch) : p ch = false := by
  have h2 := List.head?_dropWhile_not p l
  rw [h] at h2
  exact h2

theorem head?_append_of_some {α : Type} {l1 l2 : List α} {ch : α}
    (h : l1.head? = some ch) : (l1 ++ l2).head? = some ch := by
  cases l1 with
  | nil => simp at h
  | cons a t => simpa using h

theorem stripEnds_prefix_eq (s : List Char) :
    s.dropWhile pySpace =
      stripEnds s ++ ((s.dropWhile pySpace).reverse.takeWhile pySpace).reverse := by
  have h : ((s.dropWhile pySpace).reverse.takeWhile pySpace) ++
      ((s.dropWhile pySpace).reverse.dropWhile pySpace) = (s.dropWhile pySpace).reverse :=
    List.takeWhile_append_dropWhile pySpace (s.dropWhile pySpace).reverse
  calc s.dropWhile pySpace
      = ((s.dropWhile pySpace).reverse).reverse := (List.reverse_reverse _).symm
    _ = (((s.dropWhile pySpace).reverse.takeWhile pySpace) ++
          ((s.dropWhile pySpace).reverse.dropWhile pySpace)).reverse := by rw [h]
    _ = stripEnds s ++ ((s.dropWhile pySpace).reverse.takeWhile pySpace).reverse := by
        rw [List.reverse_append]; rfl

theorem mem_stripEnds {s : List Char} {ch : Char} (h : ch ∈ stripEnds s) : ch ∈ s := by
  unfold stripEnds at h
  rw [List.mem_reverse] at h
  have h2 : ch ∈ (s.dropWhile pySpace).reverse := List.dropWhile_subset pySpace h
  rw [List.mem_reverse] at h2
  exact List.dropWhile_subset pySpace h2

theorem normalizeText_no_newline {s : List Char} {ch : Char}
    (h : ch ∈ normalizeText s) : ch ≠ '\n' := by
  unfold normalizeText at h
  have h2 := mem_stripEnds h
  rw [List.mem_map] at h2
  rcases h2 with ⟨ch2, _, he⟩
  intro hc
  by_cases h3 : ch2 = '\n'
  · rw [if_pos h3] at he
    rw [← he] at hc
    exact (by decide : (' ' : Char) ≠ '\n') hc
  · rw [if_neg h3] at he
    rw [← he] at hc
    exact h3 hc

theorem normalizeText_head {s : List Char} {ch : Char}
    (h : (normalizeText s).head? = some ch) : pySpace ch = false := by
  unfold normalizeText at h
  have hX := stripEnds_prefix_eq (s.map fun ch2 => if ch2 = '\n' then ' ' else ch2)
  have h3 : ((s.map fun ch2 => if ch2 = '\n' then ' ' else ch2).dropWhile pySpace).head? =
      some ch := by
    rw [hX]
    exact head?_append_of_some h
  exact head?_dropWhile_false h3

theorem normalizeText_last {s : List Char} {ch : Char}
    (h : (normalizeText s).getLast? = some ch) : pySpace ch = false := by
  unfold normalizeText stripEnds at h
  rw [List.getLast?_eq_head?_reverse, List.reverse_reverse] at h
  exact head?_dropWhile_false h

/-- C9: every region text the extractor emits is normalized — it contains
no newline character and neither starts nor ends with whitespace —
whatever the original cell text was (the source stores
`cell.text.replace('\n', ' ').strip()`). -/
theorem C9_text_normalized (g : GridSnapshot) (cd : CellDef) (h : cd ∈ (extract g).cells) :
    (∀ ch ∈ cd.text, ch ≠ '\n') ∧
    (∀ ch, cd.text.head? = some ch → pySpace ch = false) ∧
    (∀ ch, cd.text.getLast? = some ch → pySpace ch = false) := by
  rcases mem_cells_foldl g (coordList g.rows g.cols) ([], []) cd h with h2 | ⟨rc, _, he⟩
  · exact absurd h2 (List.not_mem_nil cd)
  · have htext : cd.text = normalizeText (g.textOf (g.cellAt rc.1 rc.2)) := by
      rw [he]; rfl
    rw [htext]
    exact ⟨fun ch hm => normalizeText_no_newline hm,
           fun ch hh => normalizeText_head hh,
           fun ch hh => normalizeText_last hh⟩

theorem C9_text_normalized_witness :
    (∀ ch ∈ rawCell.text, ch ≠ '\n') ∧
    (∀ ch, rawCell.text.head? = some ch → pySpace ch = false) ∧
    (∀ ch, rawCell.text.getLast? = some ch → pySpace ch = false) :=
  C9_text_normalized rawTextGrid rawCell (by decide)

theorem C1_write_bounds_amended_witness :
    fillLoop ⟨1, 2, [['a'], ['b']]⟩ [⟨0, 1, ['Z']⟩, ⟨5, 0, ['W']⟩] =
      Except.ok (specWrite ⟨1, 2, [['a'], ['b']]⟩ [⟨0, 1, ['Z']⟩, ⟨5, 0, ['W']⟩]) :=
  C1_write_bounds_amended ⟨1, 2, [['a'], ['b']]⟩ [⟨0, 1, ['Z']⟩, ⟨5, 0, ['W']⟩]
    (by decide) (by decide)

theorem lexLt_ne {a b : Nat × Nat} (h : lexLt a b) : a ≠ b := by
  intro he
  subst he
  rcases h with h | ⟨_, h⟩ <;> omega

theorem coordList_pairwise (rows cols : Nat) : (coordList rows cols).Pairwise lexLt := by
  rw [coordList, List.pairwise_flatMap]
  refine ⟨fun r _ => ?_, ?_⟩
  · rw [List.pairwise_map]
    exact (List.pairwise_lt_range cols).imp fun h => Or.inr ⟨rfl, h⟩
  · refine (List.pairwise_lt_range rows).imp ?_
    intro a b hab x hx y hy
    rw [List.mem_map] at hx hy
    rcases hx with ⟨c1, _, hx⟩
    rcases hy with ⟨c2, _, hy⟩
    rw [← hx, ← hy]
    exact Or.inl hab

theorem coordList_nodup (rows cols : Nat) : (coordList rows cols).Nodup :=
  (coordList_pairwise rows cols).imp lexLt_ne

theorem coordList_length (rows cols : Nat) : (coordList rows cols).length = rows * cols := by
  induction rows with
  | zero => simp [coordList]
  | succ n ih =>
    rw [coordList, List.range_succ, List.flatMap_append, List.length_append]
    have h1 : (List.range n).flatMap (fun r => (List.range cols).map fun c => (r, c)) =
        coordList n cols := rfl
    rw [h1, ih]
    simp [Nat.succ_mul]

theorem growEndCol_inj (g : GridSnapshot)
    (hinj : ∀ r, r < g.rows → ∀ c, c < g.cols → ∀ r2, r2 < g.rows → ∀ c2, c2 < g.cols →
      g.cellAt r c = g.cellAt r2 c2 → r = r2 ∧ c = c2)
    (r c : Nat) (hr : r < g.rows) (hc : c < g.cols) :
    growEndCol g r c (g.cellAt r c) = c := by
  unfold growEndCol
  cases hk : g.cols - (c + 1) with
  | zero => rfl
  | succ k =>
    rw [List.range'_succ]
    have hc1 : c + 1 < g.cols := by omega
    have hne : (g.cellAt r (c + 1) == g.cellAt r c) = false := by
      rw [beq_eq_false_iff_ne]
      intro he
      have := hinj r hr (c + 1) hc1 r hr c hc he
      omega
    simp [scanExtend, hne]

theorem growEndRow_inj (g : GridSnapshot)
    (hinj : ∀ r, r < g.rows → ∀ c, c < g.cols → ∀ r2, r2 < g.rows → ∀ c2, c2 < g.cols →
      g.cellAt r c = g.cellAt r2 c2 → r = r2 ∧ c = c2)
    (r c : Nat) (hr : r < g.rows) (hc : c < g.cols) :
    growEndRow g r c (g.cellAt r c) = r := by
  unfold growEndRow
  cases hk : g.rows - (r + 1) with
  | zero => rfl
  | succ k =>
    rw [List.range'_succ]
    have hr1 : r + 1 < g.rows := by omega
    have hne : (g.cellAt (r + 1) c == g.cellAt r c) = false := by
      rw [beq_eq_false_iff_ne]
      intro he
      have := hinj (r + 1) hr1 c hc r hr c hc he
      omega
    simp [scanExtend, hne]

theorem extract_foldl_inj (g : GridSnapshot)
    (hinj : ∀ r, r < g.rows → ∀ c, c < g.cols → ∀ r2, r2 < g.rows → ∀ c2, c2 < g.cols →
      g.cellAt r c = g.cellAt r2 c2 → r = r2 ∧ c = c2) :
    ∀ (P Q : List (Nat × Nat)) (V : List Nat) (C : List CellDef),
      coordList g.rows g.cols = Q ++ P →
      (∀ id, id ∈ V ↔ ∃ q, q ∈ Q ∧ g.cellAt q.1 q.2 = id) →
      (P.foldl (extractStep g) (V, C)).2 =
        C ++ P.map (fun rc => mkCellDef g rc.1 rc.2) := by
  intro P
  induction P with
  | nil => intro Q V C _ _; simp
  | cons rc P ih =>
    intro Q V C hsplit hV
    have hrc : rc ∈ coordList g.rows g.cols := by
      rw [hsplit]
      exact List.mem_append.2 (Or.inr (List.mem_cons_self rc P))
    have hb := mem_coordList.1 hrc
    have hnd := coordList_nodup g.rows g.cols
    have hrcQ : rc ∉ Q := by
      rw [hsplit] at hnd
      intro hin
      exact (List.nodup_append.1 hnd).2.2 hin (List.mem_cons_self rc P)
    have hid : g.cellAt rc.1 rc.2 ∉ V := by
      rw [hV]
      rintro ⟨q, hq, he⟩
      have hqmem : q ∈ coordList g.rows g.cols := by
        rw [hsplit]
        exact List.mem_append.2 (Or.inl hq)
      have hqb := mem_coordList.1 hqmem
      have heq := hinj q.1 hqb.1 q.2 hqb.2 rc.1 hb.1 rc.2 hb.2 he
      have hq_eq : q = rc := by
        rw [Prod.ext_iff]
        exact heq
      exact hrcQ (hq_eq ▸ hq)
    rw [List.foldl_cons]
    have hstep : extractStep g (V, C) rc =
        (g.cellAt rc.1 rc.2 :: V, C ++ [mkCellDef g rc.1 rc.2]) := by
      simp only [extractStep, if_neg hid]
    rw [hstep]
    have hV2 : ∀ id, id ∈ (g.cellAt rc.1 rc.2 :: V) ↔
        ∃ q, q ∈ Q ++ [rc] ∧ g.cellAt q.1 q.2 = id := by
      intro id
      rw [List.mem_cons, hV]
      constructor
      · rintro (h | ⟨q, hq, he⟩)
        · exact ⟨rc, List.mem_append.2 (Or.inr (List.mem_cons_self rc [])), h.symm⟩
        · exact ⟨q, List.mem_append.2 (Or.inl hq), he⟩
      · rintro ⟨q, hq, he⟩
        rcases List.mem_append.1 hq with h | h
        · exact Or.inr ⟨q, h, he⟩
        · left
          have hq_eq : q = rc := List.mem_singleton.1 h
          rw [← he, hq_eq]
    have hsplit2 : coordList g.rows g.cols = (Q ++ [rc]) ++ P := by
      rw [hsplit, List.append_assoc]
      rfl
    rw [ih (Q ++ [rc]) (g.cellAt rc.1 rc.2 :: V) (C ++ [mkCellDef g rc.1 rc.2]) hsplit2 hV2]
    simp

/-- C4 is false as stated: the extractor does not record the original cell
text — it records `cell.text.replace('\n', ' ').strip()`.  On the
merge-free 1×1 grid whose cell text is `" a\nb "` the emitted text is
`"a b"`, not the original. -/
theorem C4_roundtrip_counterexample :
    ¬ (∀ cd ∈ (extract rawTextGrid).cells,
        cd.text = rawTextGrid.textOf (rawTextGrid.cellAt cd.start_row cd.start_col)) := by
  decide

/-- C4 amended: extracting from a merge-free snapshot (each cell identity
occupies exactly one coordinate) yields exactly `totalRows × totalColumns`
regions, each of size 1×1, whose text is that coordinate's original cell
text *after normalization* (newlines replaced by spaces, surrounding
whitespace stripped). -/
theorem C4_roundtrip_amended (g : GridSnapshot)
    (hinj : ∀ r, r < g.rows → ∀ c, c < g.cols → ∀ r2, r2 < g.rows → ∀ c2, c2 < g.cols →
      g.cellAt r c = g.cellAt r2 c2 → r = r2 ∧ c = c2) :
    (extract g).cells.length = g.rows * g.cols ∧
    ∀ cd ∈ (extract g).cells,
      cd.start_row = cd.end_row ∧ cd.start_col = cd.end_col ∧
      cd.text = normalizeText (g.textOf (g.cellAt cd.start_row cd.start_col)) := by
  have hmain : (extract g).cells = (coordList g.rows g.cols).map
      (fun rc => mkCellDef g rc.1 rc.2) := by
    have h := extract_foldl_inj g hinj (coordList g.rows g.cols) [] [] []
      (by simp) (by simp)
    simpa [extract] using h
  constructor
  · rw [hmain, List.length_map, coordList_length]
  · intro cd hcd
    rw [hmain, List.mem_map] at hcd
    rcases hcd with ⟨rc, hm, he⟩
    have hb := mem_coordList.1 hm
    have hec := growEndCol_inj g hinj rc.1 rc.2 hb.1 hb.2
    have her := growEndRow_inj g hinj rc.1 rc.2 hb.1 hb.2
    rw [← he]
    simp only [mkCellDef]
    exact ⟨her.symm, hec.symm, trivial⟩

theorem C4_roundtrip_amended_witness :
    (extract plainGrid).cells.length = plainGrid.rows * plainGrid.cols ∧
    ∀ cd ∈ (extract plainGrid).cells,
      cd.start_row = cd.end_row ∧ cd.start_col = cd.end_col ∧
      cd.text = normalizeText (plainGrid.textOf (plainGrid.cellAt cd.start_row cd.start_col)) :=
  C4_roundtrip_amended plainGrid (by
    intro r hr c hc r2 hr2 c2 hc2 he
    simp only [plainGrid] at hr hc hr2 hc2 he
    omega)

theorem scanExtend_run (p : Nat → Bool) (hi : Nat) :
    ∀ (k cur : Nat), cur ≤ hi →
      (∀ x, cur + 1 ≤ x → x < cur + 1 + k → (p x = true ↔ x ≤ hi)) →
      scanExtend p cur (List.range' (cur + 1) k) = min hi (cur + k) := by
  intro k
  induction k with
  | zero =>
    intro cur hcur _
    simp only [List.range'_zero, scanExtend]
    omega
  | succ k ih =>
    intro cur hcur hp
    rw [List.range'_succ]
    by_cases hx : cur + 1 ≤ hi
    · have hpx : p (cur + 1) = true := (hp (cur + 1) (Nat.le_refl _) (by omega)).2 hx
      simp only [scanExtend, hpx, if_true]
      have h2 := ih (cur + 1) hx (fun x h1 h2 => hp x (by omega) (by omega))
      rw [h2]
      omega
    · have hpx : p (cur + 1) = false := by
        rw [← Bool.not_eq_true]
        intro hc
        exact hx ((hp (cur + 1) (Nat.le_refl _) (by omega)).1 hc)
      simp only [scanExtend, hpx, Bool.false_eq_true, if_false]
      omega

theorem growEndCol_rect (g : GridSnapshot) (R0 C0 R1 C1 : Nat → Nat)
    (hrect : RectSpec g R0 C0 R1 C1) (r c : Nat) (hr : r < g.rows) (hc : c < g.cols)
    (htr : r = R0 (g.cellAt r c)) (htc : c = C0 (g.cellAt r c)) :
    growEndCol g r c (g.cellAt r c) = C1 (g.cellAt r c) := by
  obtain ⟨hR01, hR1b, hC01, hC1b, hiff⟩ := hrect r hr c hc
  unfold growEndCol
  have h2 := scanExtend_run (fun c2 => g.cellAt r c2 == g.cellAt r c) (C1 (g.cellAt r c))
    (g.cols - (c + 1)) c (by omega) ?_
  · rw [h2]
    omega
  · intro x h1 hx2
    have hx : x < g.cols := by omega
    rw [beq_iff_eq, hiff r hr x hx]
    constructor
    · rintro ⟨_, _, _, h4⟩
      exact h4
    · intro h4
      refine ⟨by omega, by omega, by omega, h4⟩

theorem growEndRow_rect (g : GridSnapshot) (R0 C0 R1 C1 : Nat → Nat)
    (hrect : RectSpec g R0 C0 R1 C1) (r c : Nat) (hr : r < g.rows) (hc : c < g.cols)
    (htr : r = R0 (g.cellAt r c)) (htc : c = C0 (g.cellAt r c)) :
    growEndRow g r c (g.cellAt r c) = R1 (g.cellAt r c) := by
  obtain ⟨hR01, hR1b, hC01, hC1b, hiff⟩ := hrect r hr c hc
  unfold growEndRow
  have h2 := scanExtend_run (fun r2 => g.cellAt r2 c == g.cellAt r c) (R1 (g.cellAt r c))
    (g.rows - (r + 1)) r (by omega) ?_
  · rw [h2]
    omega
  · intro x h1 hx2
    have hx : x < g.rows := by omega
    rw [beq_iff_eq, hiff x hx c hc]
    constructor
    · rintro ⟨_, h4, _, _⟩
      exact h4
    · intro h4
      refine ⟨by omega, h4, by omega, by omega⟩

theorem first_occ_topleft (g : GridSnapshot) (R0 C0 R1 C1 : Nat → Nat)
    (hrect : RectSpec g R0 C0 R1 C1) (Q P : List (Nat × Nat)) (rc : Nat × Nat)
    (hsplit : coordList g.rows g.cols = Q ++ rc :: P)
    (hfresh : ∀ q ∈ Q, g.cellAt q.1 q.2 ≠ g.cellAt rc.1 rc.2) :
    rc.1 = R0 (g.cellAt rc.1 rc.2) ∧ rc.2 = C0 (g.cellAt rc.1 rc.2) := by
  have hrc : rc ∈ coordList g.rows g.cols := by
    rw [hsplit]
    exact List.mem_append.2 (Or.inr (List.mem_cons_self rc P))
  have hb := mem_coordList.1 hrc
  obtain ⟨hR01, hR1b, hC01, hC1b, hiff⟩ := hrect rc.1 hb.1 rc.2 hb.2
  have hin := (hiff rc.1 hb.1 rc.2 hb.2).1 rfl
  have hR0r : R0 (g.cellAt rc.1 rc.2) < g.rows := by omega
  have hC0c : C0 (g.cellAt rc.1 rc.2) < g.cols := by omega
  have htl : g.cellAt (R0 (g.cellAt rc.1 rc.2)) (C0 (g.cellAt rc.1 rc.2)) =
      g.cellAt rc.1 rc.2 :=
    (hiff (R0 (g.cellAt rc.1 rc.2)) hR0r (C0 (g.cellAt rc.1 rc.2)) hC0c).2
      ⟨Nat.le_refl _, hR01, Nat.le_refl _, hC01⟩
  have htlmem : (R0 (g.cellAt rc.1 rc.2), C0 (g.cellAt rc.1 rc.2)) ∈
      coordList g.rows g.cols := mem_coordList.2 ⟨hR0r, hC0c⟩
  have htlsuffix : (R0 (g.cellAt rc.1 rc.2), C0 (g.cellAt rc.1 rc.2)) ∈ rc :: P := by
    rw [hsplit] at htlmem
    rcases List.mem_append.1 htlmem with h | h
    · exact absurd htl (hfresh _ h)
    · exact h
  have hpw := coordList_pairwise g.rows g.cols
  rw [hsplit] at hpw
  have hpw2 := (List.pairwise_append.1 hpw).2.1
  rcases List.mem_cons.1 htlsuffix with h | h
  · exact ⟨(congrArg Prod.fst h).symm, (congrArg Prod.snd h).symm⟩
  · have hlex := (List.pairwise_cons.1 hpw2).1 _ h
    exfalso
    rcases hlex with h2 | ⟨h2a, h2b⟩
    · simp only [Prod.fst] at h2
      omega
    · simp only [Prod.fst] at h2a
      simp only [Prod.snd] at h2b
      omega

theorem extract_foldl_rect (g : GridSnapshot) (R0 C0 R1 C1 : Nat → Nat)
    (hrect : RectSpec g R0 C0 R1 C1) :
    ∀ (P Q : List (Nat × Nat)) (V : List Nat) (ids : List Nat),
      coordList g.rows g.cols = Q ++ P →
      (∀ id, id ∈ V ↔ ∃ q, q ∈ Q ∧ g.cellAt q.1 q.2 = id) →
      ids.Nodup →
      (∀ id, id ∈ ids ↔ id ∈ V) →
      ∃ ids2 : List Nat, ids2.Nodup ∧
        (∀ id, id ∈ ids2 ↔ ∃ q, q ∈ Q ++ P ∧ g.cellAt q.1 q.2 = id) ∧
        (P.foldl (extractStep g) (V, ids.map (rectCD g R0 C0 R1 C1))).2 =
          ids2.map (rectCD g R0 C0 R1 C1) := by
  intro P
  induction P with
  | nil =>
    intro Q V ids hsplit hV hnd hids
    refine ⟨ids, hnd, ?_, rfl⟩
    intro id
    rw [hids, hV]
    simp
  | cons rc P ih =>
    intro Q V ids hsplit hV hnd hids
    have hrc : rc ∈ coordList g.rows g.cols := by
      rw [hsplit]
      exact List.mem_append.2 (Or.inr (List.mem_cons_self rc P))
    have hb := mem_coordList.1 hrc
    have hsplit2 : coordList g.rows g.cols = (Q ++ [rc]) ++ P := by
      rw [hsplit, List.append_assoc]
      rfl
    rw [List.foldl_cons]
    by_cases hv : g.cellAt rc.1 rc.2 ∈ V
    · have hstep : extractStep g (V, ids.map (rectCD g R0 C0 R1 C1)) rc =
          (V, ids.map (rectCD g R0 C0 R1 C1)) := by
        simp only [extractStep, if_pos hv]
      rw [hstep]
      have hV2 : ∀ id, id ∈ V ↔ ∃ q, q ∈ Q ++ [rc] ∧ g.cellAt q.1 q.2 = id := by
        intro id
        rw [hV]
        constructor
        · rintro ⟨q, hq, he⟩
          exact ⟨q, List.mem_append.2 (Or.inl hq), he⟩
        · rintro ⟨q, hq, he⟩
          rcases List.mem_append.1 hq with h | h
          · exact ⟨q, h, he⟩
          · have hq_eq : q = rc := List.mem_singleton.1 h
            rw [hq_eq] at he
            rw [hV] at hv
            rw [← he]
            exact hv
      obtain ⟨ids2, h1, h2, h3⟩ := ih (Q ++ [rc]) V ids hsplit2 hV2 hnd hids
      refine ⟨ids2, h1, ?_, h3⟩
      intro id
      rw [h2]
      constructor
      · rintro ⟨q, hq, he⟩
        refine ⟨q, ?_, he⟩
        rw [List.append_assoc] at hq
        simpa using hq
      · rintro ⟨q, hq, he⟩
        refine ⟨q, ?_, he⟩
        rw [List.append_assoc]
        simpa using hq
    · have hfresh : ∀ q ∈ Q, g.cellAt q.1 q.2 ≠ g.cellAt rc.1 rc.2 := by
        intro q hq he
        exact hv ((hV (g.cellAt rc.1 rc.2)).2 ⟨q, hq, he⟩)
      obtain ⟨htl1, htl2⟩ :=
        first_occ_topleft g R0 C0 R1 C1 hrect Q P rc hsplit hfresh
      have hec := growEndCol_rect g R0 C0 R1 C1 hrect rc.1 rc.2 hb.1 hb.2 htl1 htl2
      have her := growEndRow_rect g R0 C0 R1 C1 hrect rc.1 rc.2 hb.1 hb.2 htl1 htl2
      have hmk : mkCellDef g rc.1 rc.2 = rectCD g R0 C0 R1 C1 (g.cellAt rc.1 rc.2) := by
        simp only [mkCellDef, rectCD]
        rw [hec, her, ← htl1, ← htl2]
      have hstep : extractStep g (V, ids.map (rectCD g R0 C0 R1 C1)) rc =
          (g.cellAt rc.1 rc.2 :: V,
            (ids ++ [g.cellAt rc.1 rc.2]).map (rectCD g R0 C0 R1 C1)) := by
        simp only [extractStep, if_neg hv, hmk, List.map_append, List.map_cons, List.map_nil]
      rw [hstep]
      have hidnotin : g.cellAt rc.1 rc.2 ∉ ids := fun h => hv ((hids _).1 h)
      have hnd2 : (ids ++ [g.cellAt rc.1 rc.2]).Nodup := by
        rw [List.nodup_append]
        refine ⟨hnd, List.nodup_singleton _, ?_⟩
        intro a ha hb2
        have : a = g.cellAt rc.1 rc.2 := List.mem_singleton.1 hb2
        rw [this] at ha
        exact hidnotin ha
      have hV2 : ∀ id, id ∈ g.cellAt rc.1 rc.2 :: V ↔
          ∃ q, q ∈ Q ++ [rc] ∧ g.cellAt q.1 q.2 = id := by
        intro id
        rw [List.mem_cons, hV]
        constructor
        · rintro (h | ⟨q, hq, he⟩)
          · exact ⟨rc, List.mem_append.2 (Or.inr (List.mem_cons_self rc [])), h.symm⟩
          · exact ⟨q, List.mem_append.2 (Or.inl hq), he⟩
        · rintro ⟨q, hq, he⟩
          rcases List.mem_append.1 hq with h | h
          · exact Or.inr ⟨q, h, he⟩
          · left
            have hq_eq : q = rc := List.mem_singleton.1 h
            rw [← he, hq_eq]
      have hids2 : ∀ id, id ∈ ids ++ [g.cellAt rc.1 rc.2] ↔ id ∈ g.cellAt rc.1 rc.2 :: V := by
        intro id
        simp only [List.mem_append, List.mem_singleton, List.mem_cons, hids]
        tauto
      obtain ⟨ids2, h1, h2, h3⟩ := ih (Q ++ [rc]) (g.cellAt rc.1 rc.2 :: V)
        (ids ++ [g.cellAt rc.1 rc.2]) hsplit2 hV2 hnd2 hids2
      refine ⟨ids2, h1, ?_, h3⟩
      intro id
      rw [h2]
      constructor
      · rintro ⟨q, hq, he⟩
        refine ⟨q, ?_, he⟩
        rw [List.append_assoc] at hq
        simpa using hq
      · rintro ⟨q, hq, he⟩
        refine ⟨q, ?_, he⟩
        rw [List.append_assoc]
        simpa using hq

/-- C3: when every merged cell of the snapshot is a solid axis-aligned
rectangle (expressed by the rectangle data `R0/C0/R1/C1` of `RectSpec`),
the emitted regions partition the `totalRows × totalColumns` grid: every
in-bounds coordinate is covered by exactly one emitted region. -/
theorem C3_partition (g : GridSnapshot) (R0 C0 R1 C1 : Nat → Nat)
    (hrect : RectSpec g R0 C0 R1 C1) (r c : Nat) (hr : r < g.rows) (hc : c < g.cols) :
    ((extract g).cells.countP fun cd => coversB cd r c) = 1 := by
  obtain ⟨ids, hnd, hmem, hcells⟩ := extract_foldl_rect g R0 C0 R1 C1 hrect
    (coordList g.rows g.cols) [] [] [] rfl (by simp) List.nodup_nil (by simp)
  have hcells2 : (extract g).cells = ids.map (rectCD g R0 C0 R1 C1) := hcells
  have hmem2 : ∀ id, id ∈ ids ↔ ∃ q, q ∈ coordList g.rows g.cols ∧ g.cellAt q.1 q.2 = id := by
    intro id
    rw [hmem]
    simp
  rw [hcells2, List.countP_map]
  have hid0 : g.cellAt r c ∈ ids :=
    (hmem2 (g.cellAt r c)).2 ⟨(r, c), mem_coordList.2 ⟨hr, hc⟩, rfl⟩
  have hpt : ∀ id2 ∈ ids,
      (((fun cd => coversB cd r c) ∘ rectCD g R0 C0 R1 C1) id2 ↔ (id2 == g.cellAt r c)) := by
    intro id2 hid2
    obtain ⟨q, hq, he⟩ := (hmem2 id2).1 hid2
    have hqb := mem_coordList.1 hq
    obtain ⟨hR01, hR1b, hC01, hC1b, hiff⟩ := hrect q.1 hqb.1 q.2 hqb.2
    rw [he] at hR01 hR1b hC01 hC1b hiff
    have h1 : coversB (rectCD g R0 C0 R1 C1 id2) r c = true ↔ g.cellAt r c = id2 := by
      simp only [coversB, rectCD, Bool.and_eq_true, decide_eq_true_eq, and_assoc]
      exact (hiff r hr c hc).symm
    have h2 : (id2 == g.cellAt r c) = true ↔ g.cellAt r c = id2 := by
      rw [beq_iff_eq, eq_comm]
    rw [Function.comp_apply, h1, h2]
  rw [List.countP_congr hpt]
  exact List.count_eq_one_of_mem hnd hid0

theorem C3_partition_witness :
    ((extract scenarioGrid).cells.countP fun cd => coversB cd 1 2) = 1 :=
  C3_partition scenarioGrid scenR0 scenC0 scenR1 scenC1
    (by
      intro r0 hr0 c0 hc0
      simp only [scenarioGrid] at hr0 hc0
      interval_cases r0 <;> interval_cases c0 <;> decide)
    1 2 (by decide) (by decide)

end RMSFiller
